import Mathlib

/-!
# Verification of the legacy .NET documentation generator

A shallow embedding of `generate_legacy_docs.py` (class `LegacyDocGenerator`).
Source text is modelled as `List Char`.  Each Python regular expression used by
the generator is embedded as a dedicated scanning function whose operational
behaviour (leftmost search, lazy/greedy sub-matches with the backtracking the
Python `re` engine performs for that particular pattern) is reproduced exactly:

* `findDocClass`   embeds `re.search` of
  `///\s*<summary>(.*?)</summary>.*?public\s+(class|enum|interface)\s+(\w+)`
  with `DOTALL` (lazy groups commit to the first possible close because the
  remainder of the pattern is monotone: if no type declaration follows the
  earliest `</summary>`, none follows a later one either);
* `findClassDecl`  embeds `re.search` of `public\s+(class|enum|interface)\s+(\w+)`;
* `findBlocks`     embeds `re.finditer` of
  `///\s*<summary>(.*?)</summary>(.*?)(?=///|\Z)` with `DOTALL`
  (the lazy second group ends at the first following `///`, or at end of input);
* `searchPat '('`  embeds `re.search` of `public\s+.*?\s+(\w+)\s*\(`
  (including the backtracking of the first `\s+` against the lazy `.*?`:
  with a whitespace run of length k after `public`, the engine first looks for
  the earliest `\s+(\w+)\s*\(` match at or after position k, and failing that
  re-uses the tail of the run, which succeeds iff the word starts right at
  position k);
* `searchPat '\x7b'` embeds `re.search` of `public\s+.*?\s+(\w+)\s*\x7b`;
* `searchCtor`     embeds `re.search` of `public\s+(\w+)\s*\(`;
* `extract_parameters` embeds `re.finditer` of
  `///\s*<param name="([^"]+)">(.*?)</param>` with `DOTALL`;
* `extract_returns`    embeds `re.search` of `///\s*<returns>(.*?)</returns>`.

String normalisation (`str.strip`, `re.sub(r'\s+', ' ', _)`,
`re.sub(r'///\s*', '', _)`, `str.rstrip('\x7b')`) is embedded by `pyStrip`,
`collapseWS`, `remTriple` and `rstripBrace`.
-/

/-- Python `\s` / `str.strip` whitespace (ASCII). -/
def pyIsSpace (c : Char) : Bool :=
  c = ' ' || c = '\t' || c = '\n' || c = '\r' || c = '\x0b' || c = '\x0c'

/-- Python `\w` word character (ASCII inputs). -/
def pyIsWord (c : Char) : Bool :=
  c.isAlphanum || c = '_'

/-- Test whether `p` is an initial segment of `l`. -/
def startsWithL : List Char → List Char → Bool
  | [], _ => true
  | _ :: _, [] => false
  | p :: ps, c :: cs => p = c && startsWithL ps cs

/-- Test whether `p` occurs as a contiguous segment of `l`. -/
def containsSeq (p : List Char) : List Char → Bool
  | [] => startsWithL p []
  | c :: cs => startsWithL p (c :: cs) || containsSeq p cs

/-- Split at the first occurrence of the literal `pat`:
returns the text before it and the text after it. -/
def splitFirstLit (pat : List Char) : List Char → Option (List Char × List Char)
  | [] => if startsWithL pat [] then some ([], []) else none
  | c :: cs =>
    if startsWithL pat (c :: cs) then some ([], (c :: cs).drop pat.length)
    else
      match splitFirstLit pat cs with
      | some (a, b) => some (c :: a, b)
      | none => none

/-- Split at the first occurrence of `///` (the occurrence itself is kept in
the second component).  Embeds the lazy group bounded by the `(?=///|\Z)`
lookahead. -/
def splitAtTriple : List Char → List Char × List Char
  | [] => ([], [])
  | c :: cs =>
    if c = '/' && startsWithL ['/', '/'] cs then ([], c :: cs)
    else ((c :: (splitAtTriple cs).1), (splitAtTriple cs).2)

/-- Python `str.split('\n')`. -/
def splitLines : List Char → List (List Char)
  | [] => [[]]
  | c :: cs =>
    if c = '\n' then [] :: splitLines cs
    else
      match splitLines cs with
      | l :: ls => (c :: l) :: ls
      | [] => [[c]]

/-- Python `str.strip()`. -/
def pyStrip (l : List Char) : List Char :=
  (((l.dropWhile pyIsSpace).reverse).dropWhile pyIsSpace).reverse

/-- Python `str.rstrip('\x7b')`: remove every trailing open brace. -/
def rstripBrace (l : List Char) : List Char :=
  (l.reverse.dropWhile (fun c => c = '\x7b')).reverse

mutual
/-- Python `re.sub(r'\s+', ' ', _)`: collapse each whitespace run to one space. -/
def collapseWS : List Char → List Char
  | [] => []
  | c :: cs => if pyIsSpace c then ' ' :: collapseAfterWS cs else c :: collapseWS cs

/-- Helper of `collapseWS`: inside a whitespace run. -/
def collapseAfterWS : List Char → List Char
  | [] => []
  | c :: cs => if pyIsSpace c then collapseAfterWS cs else c :: collapseWS cs
end

/-- Python `re.sub(r'///\s*', '', _)`: delete each `///` with its trailing
whitespace run (scanning resumes right after the deleted match).  Implemented
with a fuel argument so that the definition reduces structurally; the input
length bounds the number of steps because every step consumes at least one
character. -/
def remTripleGo : Nat → List Char → List Char
  | 0, _ => []
  | _, [] => []
  | fuel + 1, c :: cs =>
    if c = '/' && startsWithL ['/', '/'] cs then
      remTripleGo fuel ((cs.drop 2).dropWhile pyIsSpace)
    else c :: remTripleGo fuel cs

def remTriple (l : List Char) : List Char :=
  remTripleGo l.length l

/-- Normalisation applied to every extracted summary / description:
`re.sub(r'///\s*', '', re.sub(r'\s+', ' ', text.strip()))`. -/
def normalizeSummary (l : List Char) : List Char :=
  remTriple (collapseWS (pyStrip l))

/-! ## The primary-declaration patterns (`extract_class_info`) -/

/-- The alternation `(class|enum|interface)` (the three literals start with
distinct characters, so at most one can match at a given position). -/
def kwMatch (t : List Char) : Option (List Char × List Char) :=
  if startsWithL "class".data t then some ("class".data, t.drop 5)
  else if startsWithL "enum".data t then some ("enum".data, t.drop 4)
  else if startsWithL "interface".data t then some ("interface".data, t.drop 9)
  else none

/-- Pattern `\s+(class|enum|interface)\s+(\w+)` anchored right after a `public`
literal.  Both `\s+` are committed to the full whitespace run (the following
atoms begin with non-whitespace), and the greedy `(\w+)` to the full word
run. -/
def tryClassAfterPublic (t : List Char) : Option (List Char × List Char) :=
  if t.takeWhile pyIsSpace = [] then none
  else
    match kwMatch (t.dropWhile pyIsSpace) with
    | some (kw, t2) =>
      if t2.takeWhile pyIsSpace = [] then none
      else
        if (t2.dropWhile pyIsSpace).takeWhile pyIsWord = [] then none
        else some (kw, (t2.dropWhile pyIsSpace).takeWhile pyIsWord)
    | none => none

/-- Search `re.search(r'public\s+(class|enum|interface)\s+(\w+)', _)`:
leftmost `public` occurrence from which the rest of the pattern matches.
Returns (matched keyword, name). -/
def findClassDecl : List Char → Option (List Char × List Char)
  | [] => none
  | c :: cs =>
    match
      (if startsWithL "public".data (c :: cs) then
        tryClassAfterPublic ((c :: cs).drop 6)
      else none) with
    | some r => some r
    | none => findClassDecl cs

/-- The documented-class pattern, anchored right after a `///`:
`\s*<summary>(.*?)</summary>.*?public\s+(class|enum|interface)\s+(\w+)`.
The lazy `(.*?)` commits to the first `</summary>` (if no type declaration
follows it, none follows a later close either, so Python's backtracking into a
later close can never succeed), and the lazy `.*?` makes the type-declaration
search a leftmost search over the remaining text. -/
def tryDocAt (t : List Char) : Option (List Char × (List Char × List Char)) :=
  if startsWithL "<summary>".data (t.dropWhile pyIsSpace) then
    match splitFirstLit "</summary>".data ((t.dropWhile pyIsSpace).drop 9) with
    | some (g1, after) =>
      match findClassDecl after with
      | some kn => some (g1, kn)
      | none => none
    | none => none
  else none

/-- Search (`re.search`) of the full documented-class pattern (`re.DOTALL`):
leftmost `///` from which the rest matches.  Returns
(raw summary group, (keyword, name)). -/
def findDocClass : List Char → Option (List Char × (List Char × List Char))
  | [] => none
  | c :: cs =>
    match
      (if startsWithL "///".data (c :: cs) then tryDocAt ((c :: cs).drop 3)
      else none) with
    | some r => some r
    | none => findDocClass cs

/-- Result of `extract_class_info`: the Python dict
`{'name': …, 'type': …, 'summary': …}`. -/
structure ClassInfo where
  name : List Char
  type : List Char
  summary : List Char
deriving DecidableEq, Repr

/-- Embeds `LegacyDocGenerator.extract_class_info`. -/
def extract_class_info (content : List Char) : Option ClassInfo :=
  match findDocClass content with
  | some (g1, (kw, nm)) => some ⟨nm, kw, normalizeSummary g1⟩
  | none =>
    match findClassDecl content with
    | some (kw, nm) => some ⟨nm, kw, "No documentation available".data⟩
    | none => none

/-! ## The member-block pattern (`extract_members`) -/

/-- One match of the member-block pattern `///\s*<summary>(.*?)</summary>(.*?)(?=///|\Z)`:
`g1` is the summary group, `g2` the trailing-text group and `g0` the whole
matched span (`match.group(0)`). -/
structure Block where
  g1 : List Char
  g2 : List Char
  g0 : List Char
deriving DecidableEq, Repr

/-- One attempted match of the member-block pattern, anchored right after a
`///`; on success also returns the remaining input after the match (the
lookahead consumes nothing). -/
def tryBlockAt (t : List Char) : Option (Block × List Char) :=
  if startsWithL "<summary>".data (t.dropWhile pyIsSpace) then
    match splitFirstLit "</summary>".data ((t.dropWhile pyIsSpace).drop 9) with
    | some (g1, after) =>
      some (⟨g1, (splitAtTriple after).1,
             "///".data ++ t.takeWhile pyIsSpace ++ "<summary>".data ++ g1 ++
               "</summary>".data ++ (splitAtTriple after).1⟩,
            (splitAtTriple after).2)
    | none => none
  else none

/-- Iterate (`re.finditer`) the member-block pattern: leftmost matches, resuming
after each match.  Implemented with a fuel argument (the input length bounds
the number of steps, each step consumes at least one character). -/
def findBlocksGo : Nat → List Char → List Block
  | 0, _ => []
  | _, [] => []
  | fuel + 1, c :: cs =>
    if startsWithL "///".data (c :: cs) then
      match tryBlockAt ((c :: cs).drop 3) with
      | some (b, rest) => b :: findBlocksGo fuel rest
      | none => findBlocksGo fuel cs
    else findBlocksGo fuel cs

def findBlocks (l : List Char) : List Block :=
  findBlocksGo l.length l

/-! ## The per-line declaration matcher (`find_member_declaration`) -/

/-- Pattern `\s+(\w+)\s*S` anchored at a position, where `S` is the stop character
(`'('` for the method/constructor shape, `'\x7b'` for the property shape).
Every quantifier is committed: shortening `\s+` leaves a whitespace character
before `\w`, shortening the greedy `(\w+)` leaves a word character before
`\s*S`, and shortening `\s*` leaves a whitespace character before `S`. -/
def wsWordThen (stop : Char) (t : List Char) : Option (List Char) :=
  if t.takeWhile pyIsSpace = [] then none
  else
    if (t.dropWhile pyIsSpace).takeWhile pyIsWord = [] then none
    else
      match ((t.dropWhile pyIsSpace).dropWhile pyIsWord).dropWhile pyIsSpace with
      | c :: _ =>
        if c = stop then some ((t.dropWhile pyIsSpace).takeWhile pyIsWord) else none
      | [] => none

/-- Earliest position at which `\s+(\w+)\s*S` matches (the lazy `.*?` before
it enumerates positions left to right). -/
def tailScan (stop : Char) : List Char → Option (List Char)
  | [] => none
  | c :: cs =>
    match wsWordThen stop (c :: cs) with
    | some w => some w
    | none => tailScan stop cs

/-- Pattern `\s+.*?\s+(\w+)\s*S` anchored right after a `public` literal.  With a
whitespace run of length `k`, Python first tries the full run for the first
`\s+` (earliest tail match at or after position `k`), then backtracks the run:
every shorter choice reduces to the tail matching at position `k - 1`. -/
def afterPublic (stop : Char) (t : List Char) : Option (List Char) :=
  if (t.takeWhile pyIsSpace).length = 0 then none
  else
    match tailScan stop (t.drop (t.takeWhile pyIsSpace).length) with
    | some w => some w
    | none =>
      if 2 ≤ (t.takeWhile pyIsSpace).length then
        wsWordThen stop (t.drop ((t.takeWhile pyIsSpace).length - 1))
      else none

/-- Search `re.search(r'public\s+.*?\s+(\w+)\s*S', line)` for stop character `S`:
the method pattern (`S = '('`) and the property pattern (`S = '\x7b'`). -/
def searchPat (stop : Char) : List Char → Option (List Char)
  | [] => none
  | c :: cs =>
    match
      (if startsWithL "public".data (c :: cs) then
        afterPublic stop ((c :: cs).drop 6)
      else none) with
    | some w => some w
    | none => searchPat stop cs

/-- Search `re.search(r'public\s+(\w+)\s*\(', line)`: the constructor pattern. -/
def searchCtor : List Char → Option (List Char)
  | [] => none
  | c :: cs =>
    match
      (if startsWithL "public".data (c :: cs) then
        wsWordThen '(' ((c :: cs).drop 6)
      else none) with
    | some w => some w
    | none => searchCtor cs

/-- Result of a successful line classification inside
`find_member_declaration`. -/
structure MemberDecl where
  name : List Char
  type : List Char
  signature : List Char
deriving DecidableEq, Repr

/-- The ordered pattern checks applied to one (already stripped) line:
method, then property, then constructor.  The stored signature is
`line.rstrip('\x7b').strip()`. -/
def classifyLine (line : List Char) : Option MemberDecl :=
  match searchPat '(' line with
  | some n => some ⟨n, "Method".data, pyStrip (rstripBrace line)⟩
  | none =>
    match searchPat '\x7b' line with
    | some n => some ⟨n, "Property".data, pyStrip (rstripBrace line)⟩
    | none =>
      match searchCtor line with
      | some n => some ⟨n, "Constructor".data, pyStrip (rstripBrace line)⟩
      | none => none

/-- The line loop of `find_member_declaration`: strip each line, skip empty
and comment lines, return the first classification. -/
def goLines : List (List Char) → Option MemberDecl
  | [] => none
  | raw :: ls =>
    if pyStrip raw = [] then goLines ls
    else if startsWithL "//".data (pyStrip raw) then goLines ls
    else
      match classifyLine (pyStrip raw) with
      | some d => some d
      | none => goLines ls

/-- Embeds `LegacyDocGenerator.find_member_declaration`. -/
def find_member_declaration (code_block : List Char) : Option MemberDecl :=
  goLines (splitLines code_block)

/-! ## Parameter / returns annotations -/

/-- One attempted match of `<param name="([^"]+)">(.*?)</param>` right after a
`///\s*`; on success returns ((raw name, normalised description), remaining
input after `</param>`). -/
def tryParamAt (t : List Char) : Option ((List Char × List Char) × List Char) :=
  if startsWithL "<param name=\"".data (t.dropWhile pyIsSpace) then
    if ((t.dropWhile pyIsSpace).drop 13).takeWhile (fun c => c ≠ '"') = [] then none
    else
      match ((t.dropWhile pyIsSpace).drop 13).dropWhile (fun c => c ≠ '"') with
      | '"' :: '>' :: t4 =>
        match splitFirstLit "</param>".data t4 with
        | some (desc, rest) =>
          some (((((t.dropWhile pyIsSpace).drop 13).takeWhile (fun c => c ≠ '"')),
                 normalizeSummary desc), rest)
        | none => none
      | _ => none
  else none

/-- Iterate `re.finditer(r'///\s*<param name="([^"]+)">(.*?)</param>', _, re.DOTALL)`
over a documentation block, with per-match description normalisation
(`LegacyDocGenerator.extract_parameters`). -/
def extractParamsGo : Nat → List Char → List (List Char × List Char)
  | 0, _ => []
  | _, [] => []
  | fuel + 1, c :: cs =>
    if startsWithL "///".data (c :: cs) then
      match tryParamAt ((c :: cs).drop 3) with
      | some (p, rest) => p :: extractParamsGo fuel rest
      | none => extractParamsGo fuel cs
    else extractParamsGo fuel cs

def extract_parameters (doc_block : List Char) : List (List Char × List Char) :=
  extractParamsGo doc_block.length doc_block

/-- One attempted match of `<returns>(.*?)</returns>` right after a `///\s*`. -/
def tryReturnsAt (t : List Char) : Option (List Char) :=
  if startsWithL "<returns>".data (t.dropWhile pyIsSpace) then
    match splitFirstLit "</returns>".data ((t.dropWhile pyIsSpace).drop 9) with
    | some (d, _) => some (normalizeSummary d)
    | none => none
  else none

/-- Embeds `LegacyDocGenerator.extract_returns`:
`re.search(r'///\s*<returns>(.*?)</returns>', _, re.DOTALL)`. -/
def extract_returns : List Char → Option (List Char)
  | [] => none
  | c :: cs =>
    match
      (if startsWithL "///".data (c :: cs) then tryReturnsAt ((c :: cs).drop 3)
      else none) with
    | some d => some d
    | none => extract_returns cs

/-! ## Member extraction -/

/-- The Python member dict. -/
structure Member where
  name : List Char
  type : List Char
  signature : List Char
  summary : List Char
  parameters : List (List Char × List Char)
  returns : Option (List Char)
deriving DecidableEq, Repr

/-- Embeds `LegacyDocGenerator.extract_members`. -/
def extract_members (content : List Char) : List Member :=
  (findBlocks content).filterMap fun b =>
    (find_member_declaration b.g2).map fun d =>
      ⟨d.name, d.type, d.signature, normalizeSummary b.g1,
       extract_parameters b.g0, extract_returns b.g0⟩

/-- The per-class record `process_cs_file` returns into `all_classes`. -/
structure IndexEntry where
  name : List Char
  summary : List Char
  member_count : Nat
deriving DecidableEq, Repr

/-- Embeds `LegacyDocGenerator.process_cs_file`, minus the file reads and writes: `None` when no class
information is extracted, otherwise the index record (name, summary, number of
extracted members). -/
def process_cs_file (content : List Char) : Option IndexEntry :=
  match extract_class_info content with
  | none => none
  | some ci => some ⟨ci.name, ci.summary, (extract_members content).length⟩

/-! ## Page renderer (`generate_class_doc` / `write_member_doc`)

The sequence of `f.write(...)` calls is modelled as concatenation into one
output string.  Python truthiness: `if member['parameters']:` is false for the
empty list and `if member['returns']:` is false both for `None` and for the
empty string. -/

/-- Embeds `LegacyDocGenerator.write_member_doc`. -/
def write_member_doc (m : Member) : List Char :=
  "### ".data ++ m.name ++ "\n\n".data ++
  m.summary ++ "\n\n".data ++
  (if m.parameters = [] then []
   else
     "**Parameters:**\n\n".data ++
     (m.parameters.map fun p => "- `".data ++ p.1 ++ "`: ".data ++ p.2 ++ "\n".data).flatten ++
     "\n".data) ++
  (match m.returns with
   | some r => if r = [] then [] else "**Returns:** ".data ++ r ++ "\n\n".data
   | none => []) ++
  "**Signature:**\n".data ++ "```csharp\n".data ++ m.signature ++ "\n```\n\n".data

/-- Embeds `LegacyDocGenerator.generate_class_doc`: one output document per unit.
When the member list is empty the function writes the notice and returns
early; otherwise it writes the member sections grouped by kind (Constructors,
then Properties, then Methods) and the closing attribution. -/
def generate_class_doc (ci : ClassInfo) (members : List Member) : List Char :=
  "# ".data ++ ci.name ++ " ".data ++ ci.type ++ "\n\n".data ++
  "**Generated using Legacy .NET Documentation Tools**\n\n".data ++
  "---\n\n".data ++
  "## Overview\n\n".data ++
  ci.summary ++ "\n\n".data ++
  "```csharp\n".data ++
  "namespace Trgen\n".data ++
  "\x7b\n".data ++
  "    public ".data ++ (ci.type.map Char.toLower) ++ " ".data ++ ci.name ++ "\n".data ++
  "\x7d\n".data ++
  "```\n\n".data ++
  (if members = [] then "*No documented members found.*\n\n".data
   else
     (let constructors := members.filter fun m => m.type = "Constructor".data
      let methods := members.filter fun m => m.type = "Method".data
      let properties := members.filter fun m => m.type = "Property".data
      (if constructors = [] then []
       else "## Constructors\n\n".data ++ (constructors.map write_member_doc).flatten) ++
      (if properties = [] then []
       else "## Properties\n\n".data ++ (properties.map write_member_doc).flatten) ++
      (if methods = [] then []
       else "## Methods\n\n".data ++ (methods.map write_member_doc).flatten)) ++
     "---\n\n".data ++
     "*This documentation was generated using legacy .NET documentation extraction techniques.*\n".data)

/-- Modelled from the spec: §4.4 describes the document prefix emitted for
every unit before the member sections — a title line combining name and kind,
a fixed attribution line, a horizontal rule, an Overview section containing
the summary, and a fenced code block with the synthesized namespace/type
skeleton (type keyword lower-cased).  Used to state that rendering an
empty-member unit is exactly this prefix followed by the
"no documented members" notice. -/
def classDocPrefixSpec (ci : ClassInfo) : List Char :=
  "# ".data ++ ci.name ++ " ".data ++ ci.type ++ "\n\n".data ++
  "**Generated using Legacy .NET Documentation Tools**\n\n".data ++
  "---\n\n".data ++
  "## Overview\n\n".data ++
  ci.summary ++ "\n\n".data ++
  "```csharp\n".data ++
  "namespace Trgen\n".data ++
  "\x7b\n".data ++
  "    public ".data ++ (ci.type.map Char.toLower) ++ " ".data ++ ci.name ++ "\n".data ++
  "\x7d\n".data ++
  "```\n\n".data

/-! ## Index renderer (`generate_api_index`) -/

/-- The fixed index header written before the per-class entries. -/
def apiIndexHeader : List Char :=
  "# API Reference\n\n".data ++
  "Documentazione completa delle classi TrGEN Unity generate con tecniche legacy .NET.\n\n".data ++
  "## Classi Principali\n\n".data

/-- The fixed "Informazioni Tecniche" footer. -/
def apiIndexFooter : List Char :=
  "## Informazioni Tecniche\n\n".data ++
  "Questa documentazione è stata generata utilizzando:\n\n".data ++
  "- **XML Documentation Comments**: Standard .NET (`/// <summary>`)\n".data ++
  "- **Pattern Matching**: Analisi testuale con regex\n".data ++
  "- **Legacy XML Processing**: Parsing ElementTree classico\n".data ++
  "- **VuePress Output**: Formato moderno per il web\n\n".data

/-- The block written for one class entry in the index. -/
def apiIndexEntry (e : IndexEntry) : List Char :=
  "### [".data ++ e.name ++ "](./".data ++ e.name ++ ".md)\n\n".data ++
  e.summary ++ "\n\n".data ++
  "**Membri documentati:** ".data ++ (Nat.repr e.member_count).data ++ "\n\n".data ++
  "---\n\n".data

/-- Embeds `LegacyDocGenerator.generate_api_index`: header, then one block per entry
in the given order (the `for class_info in all_classes` loop), then the
footer. -/
def generate_api_index (all_classes : List IndexEntry) : List Char :=
  apiIndexHeader ++
  (all_classes.foldl (fun acc e => acc ++ apiIndexEntry e) []) ++
  apiIndexFooter

/-! ## Basic facts about the scanning helpers -/

lemma mem_of_mem_dropWhile {p : Char → Bool} {x : Char} :
    ∀ {l : List Char}, x ∈ l.dropWhile p → x ∈ l := by
  intro l
  induction l with
  | nil => simp [List.dropWhile]
  | cons c cs ih =>
    by_cases h : p c
    · rw [List.dropWhile_cons, if_pos h]
      exact fun hx => List.mem_cons_of_mem _ (ih hx)
    · rw [List.dropWhile_cons, if_neg h]
      exact id

lemma mem_of_mem_takeWhile {p : Char → Bool} {x : Char} :
    ∀ {l : List Char}, x ∈ l.takeWhile p → x ∈ l := by
  intro l
  induction l with
  | nil => simp [List.takeWhile]
  | cons c cs ih =>
    by_cases h : p c
    · rw [List.takeWhile_cons, if_pos h]
      intro hx
      rcases List.mem_cons.mp hx with h1 | h1
      · exact h1 ▸ List.mem_cons_self _ _
      · exact List.mem_cons_of_mem _ (ih h1)
    · rw [List.takeWhile_cons, if_neg h]
      simp

lemma containsSeq_cons (p : List Char) (c : Char) (cs : List Char) :
    containsSeq p (c :: cs) = (startsWithL p (c :: cs) || containsSeq p cs) := rfl

lemma containsSeq_of_starts {p l : List Char} (h : startsWithL p l = true) :
    containsSeq p l = true := by
  cases l with
  | nil => exact h
  | cons c cs => rw [containsSeq_cons, h, Bool.true_or]

lemma containsSeq_of_tail {p : List Char} {c : Char} {cs : List Char}
    (h : containsSeq p cs = true) : containsSeq p (c :: cs) = true := by
  rw [containsSeq_cons, h, Bool.or_true]

lemma containsSeq_of_drop {p : List Char} :
    ∀ (n : Nat) {l : List Char}, containsSeq p (l.drop n) = true →
      containsSeq p l = true := by
  intro n
  induction n with
  | zero => intro l h; simpa using h
  | succ m ih =>
    intro l h
    cases l with
    | nil => simpa using h
    | cons c cs =>
      rw [List.drop_succ_cons] at h
      exact containsSeq_of_tail (ih h)

lemma containsSeq_of_dropWhile {p : List Char} {q : Char → Bool} :
    ∀ {l : List Char}, containsSeq p (l.dropWhile q) = true →
      containsSeq p l = true := by
  intro l
  induction l with
  | nil => simp [List.dropWhile]
  | cons c cs ih =>
    by_cases h : q c
    · rw [List.dropWhile_cons, if_pos h]
      exact fun hx => containsSeq_of_tail (ih hx)
    · rw [List.dropWhile_cons, if_neg h]
      exact id

lemma dropWhile_eq_drop (q : Char → Bool) :
    ∀ (l : List Char), l.dropWhile q = l.drop (l.takeWhile q).length := by
  intro l
  induction l with
  | nil => simp [List.dropWhile, List.takeWhile]
  | cons c cs ih =>
    by_cases h : q c
    · rw [List.dropWhile_cons, if_pos h, List.takeWhile_cons, if_pos h,
        List.length_cons, List.drop_succ_cons]
      exact ih
    · rw [List.dropWhile_cons, if_neg h, List.takeWhile_cons, if_neg h]
      simp

lemma splitFirstLit_drop {pat : List Char} :
    ∀ {l a b : List Char}, splitFirstLit pat l = some (a, b) →
      ∃ m, b = l.drop m := by
  intro l
  induction l with
  | nil =>
    intro a b h
    simp only [splitFirstLit] at h
    by_cases hs : startsWithL pat [] = true
    · rw [if_pos hs] at h
      exact ⟨0, by simpa using (Prod.mk.injEq _ _ _ _ ▸ (Option.some.injEq _ _ ▸ h)).2.symm⟩
    · rw [if_neg hs] at h; cases h
  | cons c cs ih =>
    intro a b h
    simp only [splitFirstLit] at h
    by_cases hs : startsWithL pat (c :: cs) = true
    · rw [if_pos hs] at h
      refine ⟨pat.length, ?_⟩
      have := (Option.some.injEq _ _ ▸ h)
      exact ((Prod.mk.injEq _ _ _ _ ▸ this).2).symm
    · rw [if_neg hs] at h
      cases hm : splitFirstLit pat cs with
      | none => rw [hm] at h; cases h
      | some pr =>
        rw [hm] at h
        obtain ⟨a', b'⟩ := pr
        obtain ⟨m, hb⟩ := ih hm
        have hba : c :: a' = a ∧ b' = b := by
          constructor
          · exact ((Prod.mk.injEq _ _ _ _ ▸ (Option.some.injEq _ _ ▸ h))).1
          · exact ((Prod.mk.injEq _ _ _ _ ▸ (Option.some.injEq _ _ ▸ h))).2
        refine ⟨m + 1, ?_⟩
        rw [List.drop_succ_cons, ← hba.2, hb]

/-! ## Facts about the primary-declaration search -/

lemma findClassDecl_cons (c : Char) (cs : List Char) :
    findClassDecl (c :: cs) =
      (match (if startsWithL "public".data (c :: cs) then
                tryClassAfterPublic ((c :: cs).drop 6)
              else none) with
       | some r => some r
       | none => findClassDecl cs) := rfl

lemma findClassDecl_none_tail {c : Char} {cs : List Char}
    (h : findClassDecl (c :: cs) = none) : findClassDecl cs = none := by
  rw [findClassDecl_cons] at h
  cases hx : (if startsWithL "public".data (c :: cs) then
      tryClassAfterPublic ((c :: cs).drop 6) else none) with
  | none => rw [hx] at h; exact h
  | some r => rw [hx] at h; cases h

lemma findClassDecl_drop_none :
    ∀ (n : Nat) {l : List Char}, findClassDecl l = none →
      findClassDecl (l.drop n) = none := by
  intro n
  induction n with
  | zero => intro l h; simpa using h
  | succ m ih =>
    intro l h
    cases l with
    | nil => simpa using h
    | cons c cs =>
      rw [List.drop_succ_cons]
      exact ih (findClassDecl_none_tail h)

lemma kwMatch_cases {t kw t2 : List Char} (h : kwMatch t = some (kw, t2)) :
    kw = "class".data ∨ kw = "enum".data ∨ kw = "interface".data := by
  unfold kwMatch at h
  by_cases h1 : startsWithL "class".data t = true
  · rw [if_pos h1] at h
    simp only [Option.some.injEq, Prod.mk.injEq] at h
    exact Or.inl h.1.symm
  · rw [if_neg h1] at h
    by_cases h2 : startsWithL "enum".data t = true
    · rw [if_pos h2] at h
      simp only [Option.some.injEq, Prod.mk.injEq] at h
      exact Or.inr (Or.inl h.1.symm)
    · rw [if_neg h2] at h
      by_cases h3 : startsWithL "interface".data t = true
      · rw [if_pos h3] at h
        simp only [Option.some.injEq, Prod.mk.injEq] at h
        exact Or.inr (Or.inr h.1.symm)
      · rw [if_neg h3] at h; cases h

lemma tryClassAfterPublic_kw {t kw nm : List Char}
    (h : tryClassAfterPublic t = some (kw, nm)) :
    kw = "class".data ∨ kw = "enum".data ∨ kw = "interface".data := by
  unfold tryClassAfterPublic at h
  by_cases h1 : t.takeWhile pyIsSpace = []
  · rw [if_pos h1] at h; cases h
  · rw [if_neg h1] at h
    cases hk : kwMatch (t.dropWhile pyIsSpace) with
    | none => rw [hk] at h; cases h
    | some pr =>
      obtain ⟨kw', t2⟩ := pr
      rw [hk] at h
      simp only at h
      by_cases h2 : t2.takeWhile pyIsSpace = []
      · rw [if_pos h2] at h; cases h
      · rw [if_neg h2] at h
        by_cases h3 : (t2.dropWhile pyIsSpace).takeWhile pyIsWord = []
        · rw [if_pos h3] at h; cases h
        · rw [if_neg h3] at h
          simp only [Option.some.injEq, Prod.mk.injEq] at h
          exact h.1 ▸ kwMatch_cases hk

lemma findClassDecl_kw :
    ∀ {l kw nm : List Char}, findClassDecl l = some (kw, nm) →
      kw = "class".data ∨ kw = "enum".data ∨ kw = "interface".data := by
  intro l
  induction l with
  | nil => intro kw nm h; cases h
  | cons c cs ih =>
    intro kw nm h
    rw [findClassDecl_cons] at h
    by_cases hp : startsWithL "public".data (c :: cs) = true
    · rw [if_pos hp] at h
      cases hx : tryClassAfterPublic ((c :: cs).drop 6) with
      | none => rw [hx] at h; exact ih h
      | some r =>
        rw [hx] at h
        obtain ⟨kw', nm'⟩ := r
        simp only [Option.some.injEq] at h
        have : kw' = kw ∧ nm' = nm := by
          constructor
          · exact congrArg Prod.fst h
          · exact congrArg Prod.snd h
        exact this.1 ▸ tryClassAfterPublic_kw hx
    · rw [if_neg hp] at h
      simp only at h
      exact ih h

/-! ## Facts about the documented-class search -/

lemma tryDocAt_some_classDecl {t g1 : List Char} {kn : List Char × List Char}
    (h : tryDocAt t = some (g1, kn)) :
    ∃ m, findClassDecl (t.drop m) = some kn := by
  unfold tryDocAt at h
  by_cases hs : startsWithL "<summary>".data (t.dropWhile pyIsSpace) = true
  · rw [if_pos hs] at h
    split at h
    · rename_i g1' after hsp
      split at h
      · rename_i kn' hc
        simp only [Option.some.injEq, Prod.mk.injEq] at h
        obtain ⟨m1, hafter⟩ := splitFirstLit_drop hsp
        rw [dropWhile_eq_drop, List.drop_drop, List.drop_drop] at hafter
        refine ⟨(t.takeWhile pyIsSpace).length + (9 + m1), ?_⟩
        rw [← hafter, hc, h.2]
      · cases h
    · cases h
  · rw [if_neg hs] at h; cases h

lemma tryDocAt_some_summary {t : List Char}
    {r : List Char × (List Char × List Char)} (h : tryDocAt t = some r) :
    containsSeq "<summary>".data t = true := by
  unfold tryDocAt at h
  by_cases hs : startsWithL "<summary>".data (t.dropWhile pyIsSpace) = true
  · exact containsSeq_of_dropWhile (containsSeq_of_starts hs)
  · rw [if_neg hs] at h; cases h

lemma findDocClass_cons (c : Char) (cs : List Char) :
    findDocClass (c :: cs) =
      (match (if startsWithL "///".data (c :: cs) then
                tryDocAt ((c :: cs).drop 3)
              else none) with
       | some r => some r
       | none => findDocClass cs) := rfl

lemma findDocClass_none_of_classDecl_none :
    ∀ {l : List Char}, findClassDecl l = none → findDocClass l = none := by
  intro l
  induction l with
  | nil => intro _; rfl
  | cons c cs ih =>
    intro h
    rw [findDocClass_cons]
    have hinner : (if startsWithL "///".data (c :: cs) then
        tryDocAt ((c :: cs).drop 3) else none) = none := by
      by_cases hp : startsWithL "///".data (c :: cs) = true
      · rw [if_pos hp]
        cases ht : tryDocAt ((c :: cs).drop 3) with
        | none => rfl
        | some r =>
          obtain ⟨g1, kn⟩ := r
          obtain ⟨m, hm⟩ := tryDocAt_some_classDecl ht
          rw [List.drop_drop] at hm
          rw [findClassDecl_drop_none (3 + m) h] at hm
          cases hm
      · rw [if_neg hp]
    rw [hinner]
    simp only
    exact ih (findClassDecl_none_tail h)

lemma findDocClass_some_summary :
    ∀ {l : List Char} {r : List Char × (List Char × List Char)},
      findDocClass l = some r → containsSeq "<summary>".data l = true := by
  intro l
  induction l with
  | nil => intro r h; cases h
  | cons c cs ih =>
    intro r h
    rw [findDocClass_cons] at h
    by_cases hp : startsWithL "///".data (c :: cs) = true
    · rw [if_pos hp] at h
      cases ht : tryDocAt ((c :: cs).drop 3) with
      | none => rw [ht] at h; exact containsSeq_of_tail (ih h)
      | some r' =>
        have := tryDocAt_some_summary ht
        exact containsSeq_of_drop 3 this
    · rw [if_neg hp] at h
      simp only at h
      exact containsSeq_of_tail (ih h)

lemma findDocClass_kw :
    ∀ {l g1 kw nm : List Char},
      findDocClass l = some (g1, (kw, nm)) →
      kw = "class".data ∨ kw = "enum".data ∨ kw = "interface".data := by
  intro l
  induction l with
  | nil => intro g1 kw nm h; cases h
  | cons c cs ih =>
    intro g1 kw nm h
    rw [findDocClass_cons] at h
    by_cases hp : startsWithL "///".data (c :: cs) = true
    · rw [if_pos hp] at h
      cases ht : tryDocAt ((c :: cs).drop 3) with
      | none => rw [ht] at h; exact ih h
      | some r' =>
        rw [ht] at h
        simp only [Option.some.injEq] at h
        obtain ⟨m, hm⟩ := tryDocAt_some_classDecl (h ▸ ht)
        exact findClassDecl_kw hm
    · rw [if_neg hp] at h
      simp only at h
      exact ih h

/-! ## Facts about `splitAtTriple`, `splitLines` and character scans -/

lemma splitAtTriple_cons (c : Char) (cs : List Char) :
    splitAtTriple (c :: cs) =
      if (c = '/' && startsWithL ['/', '/'] cs) = true then ([], c :: cs)
      else ((c :: (splitAtTriple cs).1), (splitAtTriple cs).2) := rfl

lemma splitAtTriple_of_noTriple :
    ∀ {l : List Char}, containsSeq "///".data l = false →
      splitAtTriple l = (l, []) := by
  intro l
  induction l with
  | nil => intro _; rfl
  | cons c cs ih =>
    intro h
    rw [containsSeq_cons, Bool.or_eq_false_iff] at h
    have hg : (c = '/' && startsWithL ['/', '/'] cs) = false := by
      by_cases hc : c = '/'
      · subst hc
        have he : startsWithL "///".data ('/' :: cs) = startsWithL ['/', '/'] cs := by
          show (decide (('/' : Char) = '/') && startsWithL "//".data cs) = _
          rw [show (decide (('/' : Char) = '/')) = true from by decide, Bool.true_and]
        rw [he] at h
        simp [h.1]
      · simp [hc]
    rw [splitAtTriple_cons, hg]
    simp only [Bool.false_eq_true, if_false]
    rw [ih h.2]

lemma splitAtTriple_append_slashfree :
    ∀ {a : List Char} (b : List Char), (∀ c ∈ a, c ≠ '/') →
      splitAtTriple (a ++ b) = (a ++ (splitAtTriple b).1, (splitAtTriple b).2) := by
  intro a
  induction a with
  | nil => intro b _; simp
  | cons c cs ih =>
    intro b h
    have hc : c ≠ '/' := h c (List.mem_cons_self _ _)
    have hg : (c = '/' && startsWithL ['/', '/'] (cs ++ b)) = false := by
      simp [hc]
    rw [List.cons_append, splitAtTriple_cons, hg]
    simp only [Bool.false_eq_true, if_false]
    rw [ih b (fun x hx => h x (List.mem_cons_of_mem _ hx))]
    simp

lemma splitLines_cons (c : Char) (cs : List Char) :
    splitLines (c :: cs) =
      if c = '\n' then [] :: splitLines cs
      else
        (match splitLines cs with
         | l :: ls => (c :: l) :: ls
         | [] => [[c]]) := rfl

lemma splitLines_cons_newline (cs : List Char) :
    splitLines ('\n' :: cs) = [] :: splitLines cs := by
  rw [splitLines_cons, if_pos rfl]

lemma splitLines_cons_other {c : Char} (cs : List Char) (h : c ≠ '\n') :
    splitLines (c :: cs) =
      (match splitLines cs with
       | l :: ls => (c :: l) :: ls
       | [] => [[c]]) := by
  rw [splitLines_cons, if_neg h]

lemma splitLines_no_newline :
    ∀ {a : List Char}, (∀ c ∈ a, c ≠ '\n') → splitLines a = [a] := by
  intro a
  induction a with
  | nil => intro _; rfl
  | cons c cs ih =>
    intro h
    rw [splitLines_cons_other cs (h c (List.mem_cons_self _ _))]
    rw [ih (fun x hx => h x (List.mem_cons_of_mem _ hx))]

lemma splitLines_append_newline :
    ∀ {a : List Char} (b : List Char), (∀ c ∈ a, c ≠ '\n') →
      splitLines (a ++ '\n' :: b) = a :: splitLines b := by
  intro a
  induction a with
  | nil => intro b _; simpa using splitLines_cons_newline b
  | cons c cs ih =>
    intro b h
    rw [List.cons_append,
      splitLines_cons_other _ (h c (List.mem_cons_self _ _)),
      ih b (fun x hx => h x (List.mem_cons_of_mem _ hx))]

lemma takeWhile_append_all {q : Char → Bool} :
    ∀ {a : List Char} (b : List Char), (∀ c ∈ a, q c = true) →
      (a ++ b).takeWhile q = a ++ b.takeWhile q := by
  intro a
  induction a with
  | nil => intro b _; simp
  | cons c cs ih =>
    intro b h
    rw [List.cons_append, List.takeWhile_cons, if_pos (h c (List.mem_cons_self _ _)),
      ih b (fun x hx => h x (List.mem_cons_of_mem _ hx)), List.cons_append]

lemma dropWhile_append_all {q : Char → Bool} :
    ∀ {a : List Char} (b : List Char), (∀ c ∈ a, q c = true) →
      (a ++ b).dropWhile q = b.dropWhile q := by
  intro a
  induction a with
  | nil => intro b _; simp
  | cons c cs ih =>
    intro b h
    rw [List.cons_append, List.dropWhile_cons, if_pos (h c (List.mem_cons_self _ _)),
      ih b (fun x hx => h x (List.mem_cons_of_mem _ hx))]

lemma word_not_space {c : Char} (h : pyIsWord c = true) : pyIsSpace c = false := by
  by_contra hs
  rw [Bool.not_eq_false] at hs
  unfold pyIsSpace at hs
  simp only [Bool.or_eq_true, decide_eq_true_eq] at hs
  rcases hs with ((((h1 | h1) | h1) | h1) | h1) | h1 <;>
    (subst h1; exact absurd h (by decide))

lemma word_ne {c : Char} (d : Char) (h : pyIsWord c = true)
    (hd : pyIsWord d = false) : c ≠ d := by
  intro he
  subst he
  rw [h] at hd
  cases hd

/-! ## The declaration matcher fails on lines without the stop character -/

lemma wsWordThen_none_of_noStop {stop : Char} {t : List Char}
    (h : ∀ c ∈ t, c ≠ stop) : wsWordThen stop t = none := by
  unfold wsWordThen
  by_cases h1 : t.takeWhile pyIsSpace = []
  · rw [if_pos h1]
  · rw [if_neg h1]
    by_cases h2 : (t.dropWhile pyIsSpace).takeWhile pyIsWord = []
    · rw [if_pos h2]
    · rw [if_neg h2]
      cases hx : ((t.dropWhile pyIsSpace).dropWhile pyIsWord).dropWhile pyIsSpace with
      | nil => simp
      | cons c rest =>
        have hc : c ∈ t := by
          apply mem_of_mem_dropWhile (p := pyIsSpace)
          apply mem_of_mem_dropWhile (p := pyIsWord)
          apply mem_of_mem_dropWhile (p := pyIsSpace)
          rw [hx]
          exact List.mem_cons_self _ _
        simp [h c hc]

lemma tailScan_none_of_noStop {stop : Char} :
    ∀ {l : List Char}, (∀ c ∈ l, c ≠ stop) → tailScan stop l = none := by
  intro l
  induction l with
  | nil => intro _; rfl
  | cons c cs ih =>
    intro h
    unfold tailScan
    rw [wsWordThen_none_of_noStop h]
    exact ih (fun x hx => h x (List.mem_cons_of_mem _ hx))

lemma afterPublic_none_of_noStop {stop : Char} {t : List Char}
    (h : ∀ c ∈ t, c ≠ stop) : afterPublic stop t = none := by
  unfold afterPublic
  by_cases h1 : (t.takeWhile pyIsSpace).length = 0
  · rw [if_pos h1]
  · rw [if_neg h1]
    rw [tailScan_none_of_noStop
      (fun x hx => h x (List.mem_of_mem_drop hx))]
    simp only
    by_cases h2 : 2 ≤ (t.takeWhile pyIsSpace).length
    · rw [if_pos h2]
      exact wsWordThen_none_of_noStop (fun x hx => h x (List.mem_of_mem_drop hx))
    · rw [if_neg h2]

lemma searchPat_none_of_noStop {stop : Char} :
    ∀ {l : List Char}, (∀ c ∈ l, c ≠ stop) → searchPat stop l = none := by
  intro l
  induction l with
  | nil => intro _; rfl
  | cons c cs ih =>
    intro h
    unfold searchPat
    have hin : (if startsWithL "public".data (c :: cs) then
        afterPublic stop ((c :: cs).drop 6) else none) = none := by
      by_cases hp : startsWithL "public".data (c :: cs) = true
      · rw [if_pos hp]
        exact afterPublic_none_of_noStop (fun x hx => h x (List.mem_of_mem_drop hx))
      · rw [if_neg hp]
    rw [hin]
    simp only
    exact ih (fun x hx => h x (List.mem_cons_of_mem _ hx))

/-! ## Facts about line classification -/

lemma classifyLine_sig {line : List Char} {d : MemberDecl}
    (h : classifyLine line = some d) :
    d.signature = pyStrip (rstripBrace line) := by
  unfold classifyLine at h
  split at h
  · cases h; rfl
  · split at h
    · cases h; rfl
    · split at h
      · cases h; rfl
      · cases h

/-! ## Claim theorems -/

set_option maxRecDepth 80000

/-- C2, counterexample.  The claim states that the comment paired with the
primary declaration is the one immediately preceding it (same contiguous
block, no unrelated declarations interposed, first qualifying pair wins).  In
this input the structured comment `/// <summary>B</summary>` immediately
precedes `public class Bar`, yet the extracted summary is `"A"`, taken from
the file's *first* comment block, which is separated from `Bar` by the
unrelated declaration `public int x;`. -/
theorem classInfoPairsFirstComment_cex :
    extract_class_info
      "/// <summary>A</summary>\npublic int x;\n/// <summary>B</summary>\npublic class Bar \x7b\n".data
      = some ⟨"Bar".data, "class".data, "A".data⟩ ∧ "A".data ≠ "B".data := by
  decide

/-- C2, amended.  The extracted unit's summary comes from the *first*
structured comment block of the file (its text up to the first `</summary>`),
and its name/kind come from the first `public class|enum|interface`
declaration anywhere after that close — regardless of interposed unrelated
declarations or further comment blocks.  Stated for a file beginning with a
structured comment block: `s` is the summary group (first close shown is the
first close overall) and `tl` the arbitrary remaining text, whose first type
declaration is `(kw, nm)`. -/
theorem classInfoFirstBlockPairing (s tl kw nm : List Char)
    (h1 : splitFirstLit "</summary>".data (s ++ "</summary>".data ++ tl) = some (s, tl))
    (h2 : findClassDecl tl = some (kw, nm)) :
    extract_class_info ("/// <summary>".data ++ (s ++ "</summary>".data ++ tl)) =
      some ⟨nm, kw, normalizeSummary s⟩ := by
  have hd : findDocClass ("/// <summary>".data ++ (s ++ "</summary>".data ++ tl)) =
      some (s, (kw, nm)) := by
    have e1 : ("/// <summary>".data ++ (s ++ "</summary>".data ++ tl)) =
        '/' :: '/' :: '/' :: (" <summary>".data ++ (s ++ "</summary>".data ++ tl)) := rfl
    rw [e1, findDocClass_cons]
    rw [show startsWithL "///".data
      ('/' :: '/' :: '/' :: (" <summary>".data ++ (s ++ "</summary>".data ++ tl))) = true from rfl]
    rw [if_pos rfl]
    rw [show ('/' :: '/' :: '/' :: (" <summary>".data ++ (s ++ "</summary>".data ++ tl))).drop 3
        = " <summary>".data ++ (s ++ "</summary>".data ++ tl) from rfl]
    unfold tryDocAt
    rw [show (" <summary>".data ++ (s ++ "</summary>".data ++ tl)).dropWhile pyIsSpace
      = "<summary>".data ++ (s ++ "</summary>".data ++ tl) from rfl]
    rw [show startsWithL "<summary>".data
      ("<summary>".data ++ (s ++ "</summary>".data ++ tl)) = true from rfl]
    rw [if_pos rfl]
    rw [show ("<summary>".data ++ (s ++ "</summary>".data ++ tl)).drop 9
        = s ++ "</summary>".data ++ tl from rfl]
    rw [h1]
    simp only []
    rw [h2]
  unfold extract_class_info
  rw [hd]

/-- Witness for `classInfoFirstBlockPairing` at a concrete input. -/
theorem classInfoFirstBlockPairing_witness :
    (splitFirstLit "</summary>".data
        ("Hello".data ++ "</summary>".data ++ "\npublic interface IFoo \x7b".data)
      = some ("Hello".data, "\npublic interface IFoo \x7b".data)) ∧
    (findClassDecl "\npublic interface IFoo \x7b".data
      = some ("interface".data, "IFoo".data)) ∧
    extract_class_info ("/// <summary>".data ++
        ("Hello".data ++ "</summary>".data ++ "\npublic interface IFoo \x7b".data)) =
      some ⟨"IFoo".data, "interface".data, normalizeSummary "Hello".data⟩ :=
  ⟨by decide, by decide,
    classInfoFirstBlockPairing "Hello".data "\npublic interface IFoo \x7b".data
      "interface".data "IFoo".data (by decide) (by decide)⟩

/-- C1.  Evaluation of the round-trip scenario.  The input file contains
`/// <summary>Computes sum</summary>` immediately above
`public int Add(int a, int b) \x7b`, with the `<param>`/`<returns>`
annotations on the other `///` lines of the same contiguous comment block.
The parameter and returns scanners do recognise those annotations when run
over the file (second and third conjuncts), but member extraction attaches
*no* parameters and *no* returns to the extracted `Add` member (first
conjunct): the member pattern's trailing group stops at the next `///`, so
sibling annotation lines can never lie inside the span that
`extract_parameters` / `extract_returns` are given.  (Annotation lines placed
*after* the summary line instead would cut the trailing group before the
declaration, yielding no member at all.) -/
theorem membersDropParamAnnotations :
    extract_members
      "/// <param name=\"a\">first</param>\n/// <param name=\"b\">second</param>\n/// <returns>sum</returns>\n/// <summary>Computes sum</summary>\npublic int Add(int a, int b) \x7b\n".data
      = [⟨"Add".data, "Method".data, "public int Add(int a, int b)".data,
          "Computes sum".data, [], none⟩] ∧
    extract_parameters
      "/// <param name=\"a\">first</param>\n/// <param name=\"b\">second</param>\n/// <returns>sum</returns>\n/// <summary>Computes sum</summary>\npublic int Add(int a, int b) \x7b\n".data
      = [("a".data, "first".data), ("b".data, "second".data)] ∧
    extract_returns
      "/// <param name=\"a\">first</param>\n/// <param name=\"b\">second</param>\n/// <returns>sum</returns>\n/// <summary>Computes sum</summary>\npublic int Add(int a, int b) \x7b\n".data
      = some "sum".data := by
  refine ⟨by decide, by decide, by decide⟩

/-- C3.  Check ordering in the declaration matcher: a line on which the
method pattern matches is classified `Method` even when the property pattern
also matches (first conjunct); a line on which the method pattern fails and
the property pattern matches is classified `Property`, never `Constructor`
(second conjunct). -/
theorem methodCheckPrecedesProperty :
    (∀ line nm pm : List Char, searchPat '(' line = some nm →
        searchPat '\x7b' line = some pm →
        classifyLine line = some ⟨nm, "Method".data, pyStrip (rstripBrace line)⟩) ∧
    (∀ line pm : List Char, searchPat '(' line = none →
        searchPat '\x7b' line = some pm →
        classifyLine line = some ⟨pm, "Property".data, pyStrip (rstripBrace line)⟩) := by
  constructor
  · intro line nm pm hm _
    unfold classifyLine
    rw [hm]
  · intro line pm hm hp
    unfold classifyLine
    rw [hm]
    simp only []
    rw [hp]

/-- Witness for `methodCheckPrecedesProperty`: the line
`public int Obj \x7b get \x7b return Fn(x); \x7d \x7d` matches both the
method pattern (name `Fn`) and the property pattern (name `Obj`) and is
classified `Method`; the line `public int Count \x7b` matches only the
property pattern and is classified `Property`. -/
theorem methodCheckPrecedesProperty_witness :
    (searchPat '(' "public int Obj \x7b get \x7b return Fn(x); \x7d \x7d".data
      = some "Fn".data) ∧
    (searchPat '\x7b' "public int Obj \x7b get \x7b return Fn(x); \x7d \x7d".data
      = some "Obj".data) ∧
    (classifyLine "public int Obj \x7b get \x7b return Fn(x); \x7d \x7d".data
      = some ⟨"Fn".data, "Method".data,
          pyStrip (rstripBrace "public int Obj \x7b get \x7b return Fn(x); \x7d \x7d".data)⟩) ∧
    (searchPat '(' "public int Count \x7b".data = none) ∧
    (searchPat '\x7b' "public int Count \x7b".data = some "Count".data) ∧
    (classifyLine "public int Count \x7b".data
      = some ⟨"Count".data, "Property".data,
          pyStrip (rstripBrace "public int Count \x7b".data)⟩) :=
  ⟨by decide, by decide,
    methodCheckPrecedesProperty.1 _ "Fn".data "Obj".data (by decide) (by decide),
    by decide, by decide,
    methodCheckPrecedesProperty.2 _ "Count".data (by decide) (by decide)⟩

/-- C4.  A source text with no `<summary>` marker anywhere (hence no
structured comment block) whose first recognizable type declaration is
`(kw, nm)` yields a unit named `nm` of kind `kw` with the literal sentinel
summary "No documentation available". -/
theorem fallbackSentinelSummary (content kw nm : List Char)
    (hns : containsSeq "<summary>".data content = false)
    (hdecl : findClassDecl content = some (kw, nm)) :
    extract_class_info content =
      some ⟨nm, kw, "No documentation available".data⟩ := by
  have hdoc : findDocClass content = none := by
    cases h : findDocClass content with
    | none => rfl
    | some r =>
      rw [findDocClass_some_summary h] at hns
      cases hns
  unfold extract_class_info
  rw [hdoc, hdecl]

/-- Witness for `fallbackSentinelSummary` at a concrete input. -/
theorem fallbackSentinelSummary_witness :
    (containsSeq "<summary>".data "public enum Color \x7b\n  Red,\n\x7d\n".data = false) ∧
    (findClassDecl "public enum Color \x7b\n  Red,\n\x7d\n".data
      = some ("enum".data, "Color".data)) ∧
    extract_class_info "public enum Color \x7b\n  Red,\n\x7d\n".data =
      some ⟨"Color".data, "enum".data, "No documentation available".data⟩ :=
  ⟨by decide, by decide,
    fallbackSentinelSummary _ "enum".data "Color".data (by decide) (by decide)⟩

/-- C5.  A source text with no recognizable
`public class|enum|interface` declaration produces no unit: the documented
search also fails (its pattern requires such a declaration after the comment),
`extract_class_info` returns `none`, and `process_cs_file` returns `none` —
no page, no index entry. -/
theorem noDeclNoUnit (content : List Char)
    (h : findClassDecl content = none) :
    extract_class_info content = none ∧ process_cs_file content = none := by
  have hci : extract_class_info content = none := by
    unfold extract_class_info
    rw [findDocClass_none_of_classDecl_none h, h]
  exact ⟨hci, by unfold process_cs_file; rw [hci]⟩

/-- Witness for `noDeclNoUnit` at a concrete input. -/
theorem noDeclNoUnit_witness :
    (findClassDecl "// just a comment\nint x = 0;\n".data = none) ∧
    extract_class_info "// just a comment\nint x = 0;\n".data = none ∧
    process_cs_file "// just a comment\nint x = 0;\n".data = none :=
  ⟨by decide, noDeclNoUnit _ (by decide)⟩

/-- C6, counterexample.  Constructor classification *is* performed during
member extraction, with no check against the enclosing type's name: in a file
whose primary declaration is `public class Foo`, the documented line
`public Bar() \x7b` is extracted as a member of kind `Constructor` named
`Bar`, although `Bar` differs from the enclosing type name `Foo`. -/
theorem ctorOnlyPrimaryScan_cex :
    extract_members
      "public class Foo \x7b\n    /// <summary>c</summary>\n    public Bar() \x7b\n".data
      = [⟨"Bar".data, "Constructor".data, "public Bar()".data, "c".data, [], none⟩] ∧
    extract_class_info
      "public class Foo \x7b\n    /// <summary>c</summary>\n    public Bar() \x7b\n".data
      = some ⟨"Foo".data, "class".data, "No documentation available".data⟩ ∧
    "Bar".data ≠ "Foo".data := by
  refine ⟨by decide, by decide, by decide⟩

/-- C6, amended.  Constructor classification happens during member
extraction, not during the primary-declaration scan: a scanned line is
classified `Constructor` exactly when it fails the method and the property
patterns but matches the constructor pattern `public (\w+)\s*\(` — with no
comparison against the enclosing type's name (first conjunct); the
primary-declaration scan itself never produces kind `Constructor` (second
conjunct). -/
theorem ctorClassificationCharacterization :
    (∀ (line nm sig : List Char),
        classifyLine line = some ⟨nm, "Constructor".data, sig⟩ →
        searchPat '(' line = none ∧ searchPat '\x7b' line = none ∧
          searchCtor line = some nm) ∧
    (∀ (content : List Char) (ci : ClassInfo),
        extract_class_info content = some ci → ci.type ≠ "Constructor".data) := by
  constructor
  · intro line nm sig h
    unfold classifyLine at h
    cases hm : searchPat '(' line with
    | some n =>
      rw [hm] at h
      simp only [Option.some.injEq, MemberDecl.mk.injEq] at h
      exact absurd h.2.1.symm (by decide)
    | none =>
      rw [hm] at h
      simp only [] at h
      cases hp : searchPat '\x7b' line with
      | some n =>
        rw [hp] at h
        simp only [Option.some.injEq, MemberDecl.mk.injEq] at h
        exact absurd h.2.1.symm (by decide)
      | none =>
        rw [hp] at h
        simp only [] at h
        cases hc : searchCtor line with
        | some n =>
          rw [hc] at h
          simp only [Option.some.injEq, MemberDecl.mk.injEq] at h
          exact ⟨rfl, rfl, by rw [h.1]⟩
        | none => rw [hc] at h; cases h
  · intro content ci h
    unfold extract_class_info at h
    cases hd : findDocClass content with
    | some r =>
      obtain ⟨g1, kw, nm⟩ := r
      rw [hd] at h
      simp only [Option.some.injEq] at h
      have hk := findDocClass_kw hd
      intro he
      have : ci.type = kw := by rw [← h]
      rw [this] at he
      rcases hk with h1 | h1 | h1 <;> (rw [h1] at he; exact absurd he (by decide))
    | none =>
      rw [hd] at h
      simp only [] at h
      cases hf : findClassDecl content with
      | some pr =>
        obtain ⟨kw, nm⟩ := pr
        rw [hf] at h
        simp only [Option.some.injEq] at h
        have hk := findClassDecl_kw hf
        intro he
        have : ci.type = kw := by rw [← h]
        rw [this] at he
        rcases hk with h1 | h1 | h1 <;> (rw [h1] at he; exact absurd he (by decide))
      | none => rw [hf] at h; cases h

/-- Witness for `ctorClassificationCharacterization` at concrete inputs. -/
theorem ctorClassificationCharacterization_witness :
    (classifyLine "public Bar() \x7b".data
      = some ⟨"Bar".data, "Constructor".data, "public Bar()".data⟩) ∧
    (searchPat '(' "public Bar() \x7b".data = none ∧
     searchPat '\x7b' "public Bar() \x7b".data = none ∧
     searchCtor "public Bar() \x7b".data = some "Bar".data) ∧
    (extract_class_info "public class Widget \x7b\n".data
      = some ⟨"Widget".data, "class".data, "No documentation available".data⟩) ∧
    "class".data ≠ "Constructor".data :=
  ⟨by decide,
   ctorClassificationCharacterization.1 _ "Bar".data "public Bar()".data (by decide),
   by decide,
   ctorClassificationCharacterization.2 "public class Widget \x7b\n".data
     ⟨"Widget".data, "class".data, "No documentation available".data⟩ (by decide)⟩

/-- C7.  Rendering a unit with an empty member list emits exactly the
document prefix (title, attribution, rule, Overview, namespace skeleton)
followed by the "no documented members" notice — the renderer returns early,
so no Constructors/Properties/Methods section and no closing attribution line
is emitted (checked literally on a concrete unit in the remaining
conjuncts). -/
theorem emptyMembersRender :
    (∀ ci : ClassInfo, generate_class_doc ci [] =
        classDocPrefixSpec ci ++ "*No documented members found.*\n\n".data) ∧
    (containsSeq "*No documented members found.*".data
      (generate_class_doc ⟨"TrgenClient".data, "class".data, "Client for the TriggerBox".data⟩ []) = true) ∧
    (containsSeq "## Constructors".data
      (generate_class_doc ⟨"TrgenClient".data, "class".data, "Client for the TriggerBox".data⟩ []) = false) ∧
    (containsSeq "## Properties".data
      (generate_class_doc ⟨"TrgenClient".data, "class".data, "Client for the TriggerBox".data⟩ []) = false) ∧
    (containsSeq "## Methods".data
      (generate_class_doc ⟨"TrgenClient".data, "class".data, "Client for the TriggerBox".data⟩ []) = false) ∧
    (containsSeq "*This documentation was generated".data
      (generate_class_doc ⟨"TrgenClient".data, "class".data, "Client for the TriggerBox".data⟩ []) = false) := by
  refine ⟨?_, by decide, by decide, by decide, by decide, by decide⟩
  intro ci
  unfold generate_class_doc classDocPrefixSpec
  rw [if_pos rfl]

/-- C8, counterexample.  The claim states the stored signature is the
line with *exactly one* trailing open brace removed (then trimmed).  On the
line `public int Foo() \x7b\x7b` the matcher stores
`public int Foo()` — `str.rstrip` removes *every* trailing open brace, not
one. -/
theorem signatureSingleBrace_cex :
    find_member_declaration "public int Foo() \x7b\x7b".data
      = some ⟨"Foo".data, "Method".data, "public int Foo()".data⟩ ∧
    "public int Foo()".data ≠ "public int Foo() \x7b".data := by
  refine ⟨by decide, by decide⟩

lemma goLines_sig :
    ∀ (ls : List (List Char)) (d : MemberDecl), goLines ls = some d →
      ∃ raw ∈ ls, d.signature = pyStrip (rstripBrace (pyStrip raw)) := by
  intro ls
  induction ls with
  | nil => intro d h; cases h
  | cons raw rest ih =>
    intro d h
    unfold goLines at h
    by_cases h1 : pyStrip raw = []
    · rw [if_pos h1] at h
      obtain ⟨r, hr, hsig⟩ := ih d h
      exact ⟨r, List.mem_cons_of_mem _ hr, hsig⟩
    · rw [if_neg h1] at h
      by_cases h2 : startsWithL "//".data (pyStrip raw) = true
      · rw [if_pos h2] at h
        obtain ⟨r, hr, hsig⟩ := ih d h
        exact ⟨r, List.mem_cons_of_mem _ hr, hsig⟩
      · rw [if_neg h2] at h
        cases hc : classifyLine (pyStrip raw) with
        | none =>
          rw [hc] at h
          simp only [] at h
          obtain ⟨r, hr, hsig⟩ := ih d h
          exact ⟨r, List.mem_cons_of_mem _ hr, hsig⟩
        | some d' =>
          rw [hc] at h
          simp only [Option.some.injEq] at h
          exact ⟨raw, List.mem_cons_self _ _, by rw [← h, classifyLine_sig hc]⟩

/-- C8, amended.  For every code block in which the declaration matcher
classifies a member, the stored signature equals one of the scanned lines
first trimmed of surrounding whitespace, then stripped of *all* trailing open
brace characters, then trimmed of surrounding whitespace again. -/
theorem signatureAllTrailingBraces (code : List Char) (d : MemberDecl)
    (h : find_member_declaration code = some d) :
    ∃ raw ∈ splitLines code,
      d.signature = pyStrip (rstripBrace (pyStrip raw)) := by
  unfold find_member_declaration at h
  exact goLines_sig _ d h

/-- Witness for `signatureAllTrailingBraces` at a concrete input. -/
theorem signatureAllTrailingBraces_witness :
    (find_member_declaration "  public int Count \x7b\x7b  ".data
      = some ⟨"Count".data, "Property".data, "public int Count".data⟩) ∧
    ∃ raw ∈ splitLines "  public int Count \x7b\x7b  ".data,
      "public int Count".data = pyStrip (rstripBrace (pyStrip raw)) :=
  ⟨by decide,
   signatureAllTrailingBraces _
     ⟨"Count".data, "Property".data, "public int Count".data⟩ (by decide)⟩

lemma foldl_append_apiIndexEntry :
    ∀ (es : List IndexEntry) (acc : List Char),
      es.foldl (fun a e => a ++ apiIndexEntry e) acc
        = acc ++ (es.map apiIndexEntry).flatten := by
  intro es
  induction es with
  | nil => intro acc; simp
  | cons e rest ih =>
    intro acc
    rw [List.foldl_cons, ih, List.map_cons, List.flatten_cons, List.append_assoc]

/-- C9.  The index document is the fixed header, then exactly one block
per extracted unit in the given (file-discovery) order, then the fixed
"Informazioni Tecniche" footer (first conjunct).  The order is the list
order, not sorted: `Zeta` before `Alpha` stays `Zeta` before `Alpha` (second
conjunct).  Units with identical names are not deduplicated: two entries
named `Foo` yield two separate blocks in order (third conjunct), and the two
blocks are distinct (fourth conjunct).  Each entry carries its documented
member count (fifth conjunct). -/
theorem apiIndexOrder :
    (∀ es : List IndexEntry, generate_api_index es
        = apiIndexHeader ++ (es.map apiIndexEntry).flatten ++ apiIndexFooter) ∧
    (generate_api_index [⟨"Zeta".data, "Z sum".data, 2⟩, ⟨"Alpha".data, "A sum".data, 0⟩]
      = apiIndexHeader ++ (apiIndexEntry ⟨"Zeta".data, "Z sum".data, 2⟩ ++
          (apiIndexEntry ⟨"Alpha".data, "A sum".data, 0⟩ ++ [])) ++ apiIndexFooter) ∧
    (generate_api_index [⟨"Foo".data, "first file".data, 1⟩, ⟨"Foo".data, "second file".data, 3⟩]
      = apiIndexHeader ++ (apiIndexEntry ⟨"Foo".data, "first file".data, 1⟩ ++
          (apiIndexEntry ⟨"Foo".data, "second file".data, 3⟩ ++ [])) ++ apiIndexFooter) ∧
    (apiIndexEntry ⟨"Foo".data, "first file".data, 1⟩
      ≠ apiIndexEntry ⟨"Foo".data, "second file".data, 3⟩) ∧
    (containsSeq "**Membri documentati:** 2".data
      (generate_api_index [⟨"Zeta".data, "Z sum".data, 2⟩]) = true) := by
  have hfold : ∀ es : List IndexEntry, generate_api_index es
      = apiIndexHeader ++ (es.map apiIndexEntry).flatten ++ apiIndexFooter := by
    intro es
    unfold generate_api_index
    rw [foldl_append_apiIndexEntry es [], List.nil_append]
  refine ⟨hfold, ?_, ?_, by decide, by decide⟩
  · rw [hfold]
    rfl
  · rw [hfold]
    rfl

/-! ## C10: the type declaration itself is extracted as a Property member -/

lemma findBlocksGo_consX (fuel : Nat) (c : Char) (cs : List Char) :
    findBlocksGo (fuel + 1) (c :: cs) =
      if startsWithL "///".data (c :: cs) then
        (match tryBlockAt ((c :: cs).drop 3) with
         | some (b, rest) => b :: findBlocksGo fuel rest
         | none => findBlocksGo fuel cs)
      else findBlocksGo fuel cs := rfl

lemma findBlocksGo_nilX (fuel : Nat) : findBlocksGo fuel [] = [] := by
  cases fuel <;> rfl

lemma searchPat_consX (stop : Char) (c : Char) (cs : List Char) :
    searchPat stop (c :: cs) =
      (match (if startsWithL "public".data (c :: cs) then
                afterPublic stop ((c :: cs).drop 6)
              else none) with
       | some w => some w
       | none => searchPat stop cs) := rfl

lemma tailScan_consX (stop : Char) (c : Char) (cs : List Char) :
    tailScan stop (c :: cs) =
      (match wsWordThen stop (c :: cs) with
       | some w => some w
       | none => tailScan stop cs) := rfl

-- the positive property-pattern computation
lemma searchProp_classLineX (name : List Char) (hname : name ≠ [])
    (hword : ∀ c ∈ name, pyIsWord c = true) :
    searchPat '\x7b' ("public class ".data ++ (name ++ [' ', '\x7b'])) = some name := by
  have hdw_name : ∀ (r : List Char), (name ++ r).dropWhile pyIsSpace = name ++ r := by
    intro r
    cases name with
    | nil => exact absurd rfl hname
    | cons n0 name' =>
      rw [List.cons_append, List.dropWhile_cons,
        if_neg (by rw [word_not_space (hword n0 (List.mem_cons_self _ _))]
                   exact fun h => nomatch h)]
  have htw_name : ∀ (r : List Char), (name ++ r).takeWhile pyIsSpace = [] := by
    intro r
    cases name with
    | nil => exact absurd rfl hname
    | cons n0 name' =>
      rw [List.cons_append, List.takeWhile_cons,
        if_neg (by rw [word_not_space (hword n0 (List.mem_cons_self _ _))]
                   exact fun h => nomatch h)]
  have hww : wsWordThen '\x7b' (' ' :: (name ++ [' ', '\x7b'])) = some name := by
    unfold wsWordThen
    rw [List.takeWhile_cons, if_pos (show pyIsSpace ' ' = true from rfl)]
    rw [htw_name [' ', '\x7b']]
    rw [if_neg (by exact fun h => nomatch h)]
    rw [List.dropWhile_cons, if_pos (show pyIsSpace ' ' = true from rfl)]
    rw [hdw_name [' ', '\x7b']]
    rw [takeWhile_append_all [' ', '\x7b'] hword,
      show ([' ', '\x7b'].takeWhile pyIsWord) = [] from rfl, List.append_nil]
    rw [if_neg hname]
    rw [dropWhile_append_all [' ', '\x7b'] hword,
      show ([' ', '\x7b'].dropWhile pyIsWord) = [' ', '\x7b'] from rfl,
      show ([' ', '\x7b'].dropWhile pyIsSpace) = ['\x7b'] from rfl]
    rfl
  rw [show "public class ".data ++ (name ++ [' ', '\x7b'])
      = 'p' :: 'u' :: 'b' :: 'l' :: 'i' :: 'c' :: (" class ".data ++ (name ++ [' ', '\x7b']))
      from rfl]
  rw [searchPat_consX]
  rw [show startsWithL "public".data
      ('p' :: 'u' :: 'b' :: 'l' :: 'i' :: 'c' :: (" class ".data ++ (name ++ [' ', '\x7b'])))
      = true from rfl]
  rw [if_pos rfl]
  rw [show ('p' :: 'u' :: 'b' :: 'l' :: 'i' :: 'c' :: (" class ".data ++ (name ++ [' ', '\x7b']))).drop 6
      = ' ' :: ("class ".data ++ (name ++ [' ', '\x7b'])) from rfl]
  unfold afterPublic
  rw [show ((' ' :: ("class ".data ++ (name ++ [' ', '\x7b']))).takeWhile pyIsSpace)
      = [' '] from by
    rw [List.takeWhile_cons, if_pos (show pyIsSpace ' ' = true from rfl)]
    rw [show "class ".data ++ (name ++ [' ', '\x7b'])
        = 'c' :: ("lass ".data ++ (name ++ [' ', '\x7b'])) from rfl]
    rw [List.takeWhile_cons, if_neg (by exact fun h => nomatch h)]]
  rw [if_neg (by decide)]
  rw [show (' ' :: ("class ".data ++ (name ++ [' ', '\x7b']))).drop [' '].length
      = "class ".data ++ (name ++ [' ', '\x7b']) from rfl]
  rw [show tailScan '\x7b' ("class ".data ++ (name ++ [' ', '\x7b']))
      = tailScan '\x7b' (' ' :: (name ++ [' ', '\x7b'])) from rfl]
  rw [tailScan_consX, hww]

lemma goLines_consX (raw : List Char) (ls : List (List Char)) :
    goLines (raw :: ls) =
      if pyStrip raw = [] then goLines ls
      else if startsWithL "//".data (pyStrip raw) = true then goLines ls
      else
        (match classifyLine (pyStrip raw) with
         | some d => some d
         | none => goLines ls) := rfl

-- member classification of the decl line
lemma classify_classLineX (name : List Char) (hname : name ≠ [])
    (hword : ∀ c ∈ name, pyIsWord c = true) :
    classifyLine ("public class ".data ++ (name ++ [' ', '\x7b']))
      = some ⟨name, "Property".data, "public class ".data ++ name⟩ := by
  have hparen : ∀ c ∈ ("public class ".data ++ (name ++ [' ', '\x7b'])), c ≠ '(' := by
    intro c hc
    rcases List.mem_append.mp hc with h | h
    · exact (by decide : ∀ x ∈ "public class ".data, x ≠ '(') c h
    · rcases List.mem_append.mp h with h2 | h2
      · exact word_ne '(' (hword c h2) (by decide)
      · exact (by decide : ∀ x ∈ [' ', '\x7b'], x ≠ '(') c h2
  have hsig : pyStrip (rstripBrace ("public class ".data ++ (name ++ [' ', '\x7b'])))
      = "public class ".data ++ name := by
    have hrev : ("public class ".data ++ (name ++ [' ', '\x7b'])).reverse
        = '\x7b' :: ' ' :: ("public class ".data ++ name).reverse := by
      rw [show "public class ".data ++ (name ++ [' ', '\x7b'])
          = ("public class ".data ++ name) ++ [' ', '\x7b'] from
            (List.append_assoc _ _ _).symm,
        List.reverse_append]
      rfl
    have hrb : rstripBrace ("public class ".data ++ (name ++ [' ', '\x7b']))
        = ("public class ".data ++ name) ++ [' '] := by
      unfold rstripBrace
      rw [hrev, List.dropWhile_cons, if_pos (by decide), List.dropWhile_cons,
        if_neg (by decide), List.reverse_cons, List.reverse_reverse]
    rw [hrb]
    unfold pyStrip
    rw [show (("public class ".data ++ name) ++ [' ']).dropWhile pyIsSpace
        = ("public class ".data ++ name) ++ [' '] from by
      rw [show ("public class ".data ++ name) ++ [' ']
          = 'p' :: (("ublic class ".data ++ name) ++ [' ']) from rfl,
        List.dropWhile_cons, if_neg (by decide)]]
    rw [List.reverse_append, show ([' '] : List Char).reverse = [' '] from rfl,
      List.cons_append, List.nil_append]
    rw [List.dropWhile_cons, if_pos (by decide)]
    rw [List.reverse_append]
    cases hrn : name.reverse with
    | nil =>
      exact absurd (by simpa using congrArg List.reverse hrn) hname
    | cons m0 mr =>
      have hm0 : m0 ∈ name := by
        rw [← List.mem_reverse, hrn]; exact List.mem_cons_self _ _
      rw [List.cons_append, List.dropWhile_cons,
        if_neg (by rw [word_not_space (hword m0 hm0)]; exact fun h => nomatch h),
        ← List.cons_append, ← hrn, ← List.reverse_append, List.reverse_reverse]
  unfold classifyLine
  rw [searchPat_none_of_noStop hparen]
  simp only []
  rw [searchProp_classLineX name hname hword]
  simp only []
  rw [hsig]

-- find_member_declaration over the trailing text
lemma fmd_classLineX (name tail : List Char) (hname : name ≠ [])
    (hword : ∀ c ∈ name, pyIsWord c = true)
    (htailnl : tail = [] ∨ ∃ t', tail = '\n' :: t') :
    find_member_declaration
        ('\n' :: (("public class ".data ++ (name ++ [' ', '\x7b'])) ++ tail))
      = some ⟨name, "Property".data, "public class ".data ++ name⟩ := by
  have hBnl : ∀ c ∈ ("public class ".data ++ (name ++ [' ', '\x7b'])), c ≠ '\n' := by
    intro c hc
    rcases List.mem_append.mp hc with h | h
    · exact (by decide : ∀ x ∈ "public class ".data, x ≠ '\n') c h
    · rcases List.mem_append.mp h with h2 | h2
      · exact word_ne '\n' (hword c h2) (by decide)
      · exact (by decide : ∀ x ∈ [' ', '\x7b'], x ≠ '\n') c h2
  obtain ⟨ls, hls⟩ : ∃ ls,
      splitLines (("public class ".data ++ (name ++ [' ', '\x7b'])) ++ tail)
        = ("public class ".data ++ (name ++ [' ', '\x7b'])) :: ls := by
    rcases htailnl with rfl | ⟨t', rfl⟩
    · exact ⟨[], by rw [List.append_nil, splitLines_no_newline hBnl]⟩
    · exact ⟨splitLines t', splitLines_append_newline _ hBnl⟩
  have hrev : ("public class ".data ++ (name ++ [' ', '\x7b'])).reverse
      = '\x7b' :: ' ' :: ("public class ".data ++ name).reverse := by
    rw [show "public class ".data ++ (name ++ [' ', '\x7b'])
        = ("public class ".data ++ name) ++ [' ', '\x7b'] from
          (List.append_assoc _ _ _).symm,
      List.reverse_append]
    rfl
  have hstrip : pyStrip ("public class ".data ++ (name ++ [' ', '\x7b']))
      = "public class ".data ++ (name ++ [' ', '\x7b']) := by
    unfold pyStrip
    rw [show ("public class ".data ++ (name ++ [' ', '\x7b'])).dropWhile pyIsSpace
        = "public class ".data ++ (name ++ [' ', '\x7b']) from by
      rw [show "public class ".data ++ (name ++ [' ', '\x7b'])
          = 'p' :: ("ublic class ".data ++ (name ++ [' ', '\x7b'])) from rfl,
        List.dropWhile_cons, if_neg (by decide)]]
    rw [hrev]
    rw [List.dropWhile_cons, if_neg (by decide)]
    rw [← hrev, List.reverse_reverse]
  unfold find_member_declaration
  rw [splitLines_cons_newline, hls, goLines_consX]
  rw [if_pos (show pyStrip [] = [] from rfl)]
  rw [goLines_consX, hstrip]
  rw [if_neg (show ¬("public class ".data ++ (name ++ [' ', '\x7b']) = []) from by
    rw [show "public class ".data ++ (name ++ [' ', '\x7b'])
        = 'p' :: ("ublic class ".data ++ (name ++ [' ', '\x7b'])) from rfl]
    exact List.cons_ne_nil _ _)]
  rw [show startsWithL "//".data ("public class ".data ++ (name ++ [' ', '\x7b'])) = false
      from rfl]
  rw [if_neg (by exact fun h => nomatch h)]
  rw [classify_classLineX name hname hword]

/-- C10.  When the primary type declaration is preceded by a structured
comment and carries its opening brace on the same line
(`/// <summary>…</summary>` directly above `public class <name> \x7b`),
member extraction also emits that type declaration itself as a member: the
declaration line fails the method pattern (no parenthesis) but matches the
property pattern (name followed by open brace), so the unit's own declaration
appears as a member of kind `Property` named after the type, with the
comment's normalized text as its summary — hence it is listed in its own
rendered Properties section.  `tail` is the arbitrary rest of the file after
the declaration line (no further comment block). -/
theorem typeDeclAsPropertyMember (s name tail : List Char) (hname : name ≠ [])
    (hword : ∀ c ∈ name, pyIsWord c = true)
    (hclose : splitFirstLit "</summary>".data
        (s ++ "</summary>".data ++
          ('\n' :: (("public class ".data ++ (name ++ [' ', '\x7b'])) ++ tail)))
      = some (s, '\n' :: (("public class ".data ++ (name ++ [' ', '\x7b'])) ++ tail)))
    (htail3 : containsSeq "///".data tail = false)
    (htailnl : tail = [] ∨ ∃ t', tail = '\n' :: t') :
    ∃ ps rs, extract_members
        ("/// <summary>".data ++ (s ++ "</summary>".data ++
          ('\n' :: (("public class ".data ++ (name ++ [' ', '\x7b'])) ++ tail))))
      = [⟨name, "Property".data, "public class ".data ++ name,
          normalizeSummary s, ps, rs⟩] := by
  have hBslash : ∀ c ∈ ('\n' :: ("public class ".data ++ (name ++ [' ', '\x7b']))),
      c ≠ '/' := by
    intro c hc
    rcases List.mem_cons.mp hc with rfl | hc2
    · decide
    · rcases List.mem_append.mp hc2 with h | h
      · exact (by decide : ∀ x ∈ "public class ".data, x ≠ '/') c h
      · rcases List.mem_append.mp h with h2 | h2
        · exact word_ne '/' (hword c h2) (by decide)
        · exact (by decide : ∀ x ∈ [' ', '\x7b'], x ≠ '/') c h2
  have hsplitR : splitAtTriple
      ('\n' :: (("public class ".data ++ (name ++ [' ', '\x7b'])) ++ tail))
      = ('\n' :: (("public class ".data ++ (name ++ [' ', '\x7b'])) ++ tail), []) := by
    rw [show '\n' :: (("public class ".data ++ (name ++ [' ', '\x7b'])) ++ tail)
        = ('\n' :: ("public class ".data ++ (name ++ [' ', '\x7b']))) ++ tail from rfl]
    rw [splitAtTriple_append_slashfree tail hBslash,
      splitAtTriple_of_noTriple htail3]
  have hblk : tryBlockAt (" <summary>".data ++ (s ++ "</summary>".data ++
        ('\n' :: (("public class ".data ++ (name ++ [' ', '\x7b'])) ++ tail))))
      = some (⟨s, '\n' :: (("public class ".data ++ (name ++ [' ', '\x7b'])) ++ tail),
          "///".data ++ [' '] ++ "<summary>".data ++ s ++ "</summary>".data ++
            ('\n' :: (("public class ".data ++ (name ++ [' ', '\x7b'])) ++ tail))⟩,
          []) := by
    unfold tryBlockAt
    rw [show (" <summary>".data ++ (s ++ "</summary>".data ++
          ('\n' :: (("public class ".data ++ (name ++ [' ', '\x7b'])) ++ tail)))).dropWhile pyIsSpace
        = "<summary>".data ++ (s ++ "</summary>".data ++
          ('\n' :: (("public class ".data ++ (name ++ [' ', '\x7b'])) ++ tail))) from rfl]
    rw [show startsWithL "<summary>".data ("<summary>".data ++ (s ++ "</summary>".data ++
          ('\n' :: (("public class ".data ++ (name ++ [' ', '\x7b'])) ++ tail)))) = true from rfl]
    rw [if_pos rfl]
    rw [show ("<summary>".data ++ (s ++ "</summary>".data ++
          ('\n' :: (("public class ".data ++ (name ++ [' ', '\x7b'])) ++ tail)))).drop 9
        = s ++ "</summary>".data ++
          ('\n' :: (("public class ".data ++ (name ++ [' ', '\x7b'])) ++ tail)) from rfl]
    rw [hclose]
    simp only []
    rw [hsplitR]
    rw [show (" <summary>".data ++ (s ++ "</summary>".data ++
          ('\n' :: (("public class ".data ++ (name ++ [' ', '\x7b'])) ++ tail)))).takeWhile pyIsSpace
        = [' '] from rfl]
  have hblocks : findBlocks ("/// <summary>".data ++ (s ++ "</summary>".data ++
        ('\n' :: (("public class ".data ++ (name ++ [' ', '\x7b'])) ++ tail))))
      = [⟨s, '\n' :: (("public class ".data ++ (name ++ [' ', '\x7b'])) ++ tail),
          "///".data ++ [' '] ++ "<summary>".data ++ s ++ "</summary>".data ++
            ('\n' :: (("public class ".data ++ (name ++ [' ', '\x7b'])) ++ tail))⟩] := by
    unfold findBlocks
    rw [show "/// <summary>".data ++ (s ++ "</summary>".data ++
          ('\n' :: (("public class ".data ++ (name ++ [' ', '\x7b'])) ++ tail)))
        = '/' :: ("// <summary>".data ++ (s ++ "</summary>".data ++
          ('\n' :: (("public class ".data ++ (name ++ [' ', '\x7b'])) ++ tail)))) from rfl]
    rw [List.length_cons, findBlocksGo_consX]
    rw [show startsWithL "///".data
        ('/' :: ("// <summary>".data ++ (s ++ "</summary>".data ++
          ('\n' :: (("public class ".data ++ (name ++ [' ', '\x7b'])) ++ tail))))) = true from rfl]
    rw [if_pos rfl]
    rw [show ('/' :: ("// <summary>".data ++ (s ++ "</summary>".data ++
          ('\n' :: (("public class ".data ++ (name ++ [' ', '\x7b'])) ++ tail))))).drop 3
        = " <summary>".data ++ (s ++ "</summary>".data ++
          ('\n' :: (("public class ".data ++ (name ++ [' ', '\x7b'])) ++ tail))) from rfl]
    rw [hblk]
    simp only []
    rw [findBlocksGo_nilX]
  refine ⟨extract_parameters ("///".data ++ [' '] ++ "<summary>".data ++ s ++ "</summary>".data ++
            ('\n' :: (("public class ".data ++ (name ++ [' ', '\x7b'])) ++ tail))),
          extract_returns ("///".data ++ [' '] ++ "<summary>".data ++ s ++ "</summary>".data ++
            ('\n' :: (("public class ".data ++ (name ++ [' ', '\x7b'])) ++ tail))), ?_⟩
  unfold extract_members
  rw [hblocks]
  rw [List.filterMap_cons]
  simp only []
  rw [fmd_classLineX name tail hname hword htailnl]
  rfl

/-- Witness for `typeDeclAsPropertyMember` at a concrete input. -/
theorem typeDeclAsPropertyMember_witness :
    ("Foo".data ≠ ([] : List Char)) ∧
    (∀ c ∈ "Foo".data, pyIsWord c = true) ∧
    (splitFirstLit "</summary>".data
        ("Test".data ++ "</summary>".data ++
          ('\n' :: (("public class ".data ++ ("Foo".data ++ [' ', '\x7b'])) ++ "\n".data)))
      = some ("Test".data,
          '\n' :: (("public class ".data ++ ("Foo".data ++ [' ', '\x7b'])) ++ "\n".data))) ∧
    (containsSeq "///".data "\n".data = false) ∧
    ∃ ps rs, extract_members
        ("/// <summary>".data ++ ("Test".data ++ "</summary>".data ++
          ('\n' :: (("public class ".data ++ ("Foo".data ++ [' ', '\x7b'])) ++ "\n".data))))
      = [⟨"Foo".data, "Property".data, "public class ".data ++ "Foo".data,
          normalizeSummary "Test".data, ps, rs⟩] :=
  ⟨by decide, by decide, by decide, by decide,
   typeDeclAsPropertyMember "Test".data "Foo".data "\n".data (by decide) (by decide)
     (by decide) (by decide) (Or.inr ⟨[], rfl⟩)⟩
